import Mathlib

/-!
Shallow embedding of `src/functions/src/index.ts` (hotel_services):
the relational store (hotels / services / hotels_services), the
`filterService` query function, and the `hotelChanges` document trigger
(reconcile and delete branches), together with theorems about them.
-/

namespace HotelServices

/-- The relational store consumed by the functions:
`hotels(hotel_id PK, updated_at)`, `services(id PK, name)`,
`hotels_services(hotel_id, service_id, updated_at)`.
`nextServiceId` models the store-generated identifier for the next
inserted `services` row. Timestamps are modelled as `Nat`. -/
structure Store where
  hotels : List (String × Nat)
  services : List (Nat × String)
  hotels_services : List (String × Nat × Nat)
  nextServiceId : Nat
deriving Repr, DecidableEq

/-- An error value returned by the backing store on a query
(`error.message`, `error.stack`). -/
structure StoreError where
  message : String
  stack : Option String
deriving Repr, DecidableEq

/-- Embeds the `ServiceError` class: message, http code (default 422),
optional stack trace. -/
structure ServiceError where
  message : String
  code : Nat := 422
  stack : Option String := none
deriving Repr, DecidableEq

/-- `services.find(s => s.id === sid)?.name`: the name of the service row
joined to an association by its foreign key (inner join drops a row whose
service id resolves to nothing). -/
def serviceNameOf (st : Store) (sid : Nat) : Option String :=
  (st.services.find? (fun s => s.1 = sid)).map (fun s => s.2)

/-- The full list of service names associated to hotel `h` in the store:
its `hotels_services` rows inner-joined to `services`. -/
def assocNames (st : Store) (h : String) : List String :=
  (st.hotels_services.filter (fun a => a.1 = h)).filterMap
    (fun a => serviceNameOf st a.2.1)

/-- Embeds the PostgREST query
`from("hotels").select("hotel_id, hotels_services!inner(..., services!inner(name))")
 .in("hotels_services.services.name", services)`:
every `hotels` row paired with the names of its associations whose service
name is in `names`; the inner join keeps only hotels with at least one
such association. -/
def queryData (st : Store) (names : List String) : List (String × List String) :=
  st.hotels.filterMap (fun hr =>
    if ((assocNames st hr.1).filter (fun n => names.contains n)).isEmpty then none
    else some (hr.1, (assocNames st hr.1).filter (fun n => names.contains n)))

/-- `[...new Set(l)]`: deduplication keeping the first occurrence of each
element, in order. -/
def jsSetDedup (l : List String) : List String :=
  l.foldl (fun acc x => if acc.contains x then acc else acc ++ [x]) []

/-- Embeds `filterService(services, supabaseKey, supabaseProjectId)`.
The backing store's answer to the query is passed as an
`Except StoreError Store` (the `{ data, error }` result); JS string
truthiness makes an empty secret count as missing. Returns either the
deduplicated hotel-id list or the thrown `ServiceError`. -/
def filterService (services : List String) (supabaseKey supabaseProjectId : String)
    (store : Except StoreError Store) : Except ServiceError (List String) :=
  if services.length = 0 then
    .error { message := "No services provided", code := 422 }
  else if supabaseKey = "" ∨ supabaseProjectId = "" then
    .error { message := "Supabase configuration is not set", code := 422 }
  else
    match store with
    | .error e => .error { message := e.message, code := 500, stack := e.stack }
    | .ok st =>
        let hotelData := (queryData st services).filter
          (fun hd => services.all (fun s => hd.2.contains s))
        .ok (jsSetDedup (hotelData.map (fun hd => hd.1)))

/-- A store with no rows, used for concrete evaluations. -/
def emptyStore : Store := ⟨[], [], [], 1⟩

/-- `supabase.from("hotels").upsert([{ hotel_id: id, updated_at: now }])`:
update the row with that primary key when present, append it otherwise. -/
def upsertHotel (st : Store) (h : String) (now : Nat) : Store :=
  if st.hotels.any (fun r => r.1 = h) then
    { st with hotels := st.hotels.map (fun r => if r.1 = h then (h, now) else r) }
  else
    { st with hotels := st.hotels ++ [(h, now)] }

/-- `supabase.from("hotels").delete().match({ hotel_id: id })`. -/
def deleteHotel (st : Store) (h : String) : Store :=
  { st with hotels := st.hotels.filter (fun r => ¬ r.1 = h) }

/-- `supabase.from("hotels_services").delete().match({ hotel_id: id })`:
removes every association row of hotel `h`. -/
def deleteAssociations (st : Store) (h : String) : Store :=
  { st with hotels_services := st.hotels_services.filter (fun a => ¬ a.1 = h) }

/-- `from("services").select("id").eq("name", service)` followed by
`data[0].id`: the id of the first service row whose name matches exactly
(case-sensitive string equality). -/
def findServiceId (st : Store) (name : String) : Option Nat :=
  (st.services.find? (fun s => s.2 = name)).map (fun s => s.1)

/-- `from("services").insert([{ name: service }]).select("id")`: appends a
row with the store-generated id and returns that id. -/
def insertService (st : Store) (name : String) : Store × Nat :=
  ({ st with services := st.services ++ [(st.nextServiceId, name)],
             nextServiceId := st.nextServiceId + 1 },
   st.nextServiceId)

/-- `from("hotels_services").upsert([{ hotel_id, service_id, updated_at }])`:
update the row with that (hotel_id, service_id) key when present, append
it otherwise. -/
def upsertAssociation (st : Store) (h : String) (sid : Nat) (now : Nat) : Store :=
  if st.hotels_services.any (fun a => a.1 = h ∧ a.2.1 = sid) then
    { st with hotels_services := st.hotels_services.map (fun a => if a.1 = h ∧ a.2.1 = sid then (h, sid, now) else a) }
  else
    { st with hotels_services := st.hotels_services ++ [(h, sid, now)] }

/-- The per-service-name chain inside `hotelChanges`: look the name up; if
found, upsert the association with the existing id; otherwise insert the
service and, only when the insert response carries data
(`insertReturns`, the `if (!response.data) return;` guard), upsert the
association with the new id. -/
def serviceStep (h : String) (now : Nat) (insertReturns : Bool)
    (st : Store) (name : String) : Store :=
  match findServiceId st name with
  | some sid => upsertAssociation st h sid now
  | none =>
      if insertReturns then
        upsertAssociation (insertService st name).1 h (insertService st name).2 now
      else (insertService st name).1

/-- The state of the store after the non-delete branch of `hotelChanges`
has fully settled, with the per-name inserts answering `insertReturns`:
upsert the hotel row, delete all of its associations, then run every
per-service chain, in document order. -/
def reconcileFinalB (insertReturns : Bool) (st : Store) (h : String)
    (names : List String) (now : Nat) : Store :=
  names.foldl (serviceStep h now insertReturns)
    (deleteAssociations (upsertHotel st h now) h)

/-- `reconcileFinalB` in the normal case where every insert returns its
rows. -/
def reconcileFinal (st : Store) (h : String) (names : List String) (now : Nat) : Store :=
  reconcileFinalB true st h names now

/-- The service ids associated to hotel `h`, in row order. -/
def assocServiceIds (st : Store) (h : String) : List Nat :=
  (st.hotels_services.filter (fun a => a.1 = h)).map (fun a => a.2.1)

/-- A JavaScript value sitting in the array handed to `Promise.all`:
either `undefined` or a promise whose settlement applies an effect to the
store. -/
inductive Awaited where
  | undef : Awaited
  | chain : (Store → Store) → Awaited

/-- The `document.services.map` callback of `hotelChanges`: its braced body
builds and launches the per-service chain but has no return statement, so
the value collected by `.map` (first component, what `Promise.all`
awaits) is `undefined`, while the chain itself (second component) runs
detached. -/
def mapCallback (h : String) (now : Nat) (name : String) :
    Awaited × (Store → Store) :=
  (Awaited.undef, fun st => serviceStep h now true st name)

/-- `await Promise.all(arr)`: applies the effects of the promises in `arr`;
`undefined` entries contribute nothing. -/
def settleAll (l : List Awaited) (st : Store) : Store :=
  l.foldl (fun s a => match a with | .undef => s | .chain f => f s) st

/-- The store state guaranteed at the moment the `await Promise.all(...)`
of `hotelChanges` resolves: hotel upserted, associations deleted, and
then only whatever the awaited array settles — the values the map
callback returned. -/
def reconcileSettled (st : Store) (h : String) (names : List String) (now : Nat) : Store :=
  settleAll ((names.map (mapCallback h now)).map (fun c => c.1))
    (deleteAssociations (upsertHotel st h now) h)

/-- The name-resolution part of the per-service chain (the NameRegistry
contract): return the id of the service with exactly that name, inserting
a fresh row when absent. -/
def resolveService (st : Store) (name : String) : Store × Nat :=
  match st.services.find? (fun s => s.2 = name) with
  | some s => (st, s.1)
  | none => insertService st name

/-- The delete branch of `hotelChanges`: delete the hotel row first, then
all of its association rows. -/
def remove (st : Store) (h : String) : Store :=
  deleteAssociations (deleteHotel st h) h

/-- A store call that resolves with `{ error }` instead of throwing: when
`err` is present the deletion did not happen and the error is returned as
a value — which the delete branch of `hotelChanges` never inspects. -/
def runDelete (f : Store → Store) (err : Option StoreError) (st : Store) :
    Store × Option StoreError :=
  match err with
  | some e => (st, some e)
  | none => (f st, none)

/-- The delete branch of `hotelChanges` with a possible store-level error
on each of its two deletes: the hotel delete runs first, the association
delete runs unconditionally after it (its input state is whatever the
first left), and no error ever reaches the caller (second component). -/
def removeRun (st : Store) (h : String) (e1 e2 : Option StoreError) :
    Store × Option ServiceError :=
  ((runDelete (fun s => deleteAssociations s h) e2
      (runDelete (fun s => deleteHotel s h) e1 st).1).1,
   none)

/-- One name-resolution step of the per-service chain, viewed on the
services table alone: the table after the step, the next generated id,
and the id the name resolved to. -/
def regResolve (svcs : List (Nat × String)) (next : Nat) (n : String) :
    List (Nat × String) × Nat × Nat :=
  match svcs.find? (fun s => s.2 = n) with
  | some s => (svcs, next, s.1)
  | none => (svcs ++ [(next, n)], next + 1, next)

/-- Append an element unless already present: the effect of one
association upsert on the hotel's service-id list. -/
def addIdem (l : List Nat) (x : Nat) : List Nat :=
  if x ∈ l then l else l ++ [x]

/-- The hotel's service-id list produced by running the per-service
chains over `ns` from table `svcs`, generator `next` and current id list
`acc`. -/
def idsRun : List (Nat × String) → Nat → List String → List Nat → List Nat
  | _, _, [], acc => acc
  | svcs, next, n :: ns, acc =>
      idsRun (regResolve svcs next n).1 (regResolve svcs next n).2.1 ns
        (addIdem acc (regResolve svcs next n).2.2)

/-- The services table and generator left behind by running the chains
over `ns`. -/
def regEvolve : List (Nat × String) → Nat → List String → List (Nat × String) × Nat
  | svcs, next, [] => (svcs, next)
  | svcs, next, n :: ns =>
      regEvolve (regResolve svcs next n).1 (regResolve svcs next n).2.1 ns

/-- The id of the first service row carrying exactly that name. -/
def lookupName (svcs : List (Nat × String)) (n : String) : Option Nat :=
  (svcs.find? (fun s => s.2 = n)).map (fun s => s.1)

/-- `idsRun` against a fixed table in which every name already resolves. -/
def idsFixed (svcs : List (Nat × String)) : List String → List Nat → List Nat
  | [], acc => acc
  | n :: ns, acc => idsFixed svcs ns (addIdem acc ((lookupName svcs n).getD 0))

/-- One store operation issued by `hotelChanges`, for stating in which
order the trigger touches the store. -/
inductive Op where
  | upsertHotelOp : String → Nat → Op
  | deleteAssociationsOp : String → Op
  | deleteHotelOp : String → Op
  | selectServiceOp : String → Op
  | insertServiceOp : String → Op
  | upsertAssociationOp : String → Nat → Nat → Op
deriving Repr, DecidableEq

def Op.isSelect : Op → Bool
  | .selectServiceOp _ => true
  | _ => false

def Op.isAssocUpsert : Op → Bool
  | .upsertAssociationOp _ _ _ => true
  | _ => false

/-- `serviceStep` together with the operations it issues (normal case:
the insert returns its rows). -/
def serviceStepTrace (h : String) (now : Nat) (st : Store) (name : String) :
    Store × List Op :=
  match findServiceId st name with
  | some sid =>
      (upsertAssociation st h sid now,
       [Op.selectServiceOp name, Op.upsertAssociationOp h sid now])
  | none =>
      (upsertAssociation (insertService st name).1 h (insertService st name).2 now,
       [Op.selectServiceOp name, Op.insertServiceOp name,
        Op.upsertAssociationOp h (insertService st name).2 now])

/-- Runs the per-service chains over a name list in document order,
collecting the issued operations. -/
def namesTrace (h : String) (now : Nat) : Store → List String → Store × List Op
  | st, [] => (st, [])
  | st, n :: ns =>
      ((namesTrace h now (serviceStepTrace h now st n).1 ns).1,
       (serviceStepTrace h now st n).2 ++
         (namesTrace h now (serviceStepTrace h now st n).1 ns).2)

/-- The non-delete branch of `hotelChanges` with its operation trace:
hotel upsert, association delete, then the per-name chains. -/
def reconcileTrace (st : Store) (h : String) (names : List String) (now : Nat) :
    Store × List Op :=
  ((namesTrace h now (deleteAssociations (upsertHotel st h now) h) names).1,
   Op.upsertHotelOp h now :: Op.deleteAssociationsOp h ::
     (namesTrace h now (deleteAssociations (upsertHotel st h now) h) names).2)

theorem mem_jsSetDedup {x : String} {l : List String} (hx : x ∈ jsSetDedup l) :
    x ∈ l := by
  have key : ∀ (l : List String) (acc : List String),
      x ∈ l.foldl (fun acc x => if acc.contains x then acc else acc ++ [x]) acc →
      x ∈ acc ∨ x ∈ l := by
    intro l
    induction l with
    | nil => intro acc h; exact Or.inl h
    | cons y ys ih =>
        intro acc h
        simp only [List.foldl_cons] at h
        rcases ih _ h with h1 | h1
        · by_cases hy : acc.contains y
          · simp only [hy, if_true] at h1
            exact Or.inl h1
          · simp only [hy, if_false] at h1
            rcases List.mem_append.mp h1 with h2 | h2
            · exact Or.inl h2
            · simp only [List.mem_singleton] at h2
              exact Or.inr (by simp [h2])
        · exact Or.inr (List.mem_cons_of_mem _ h1)
  rcases key l [] hx with h | h
  · exact absurd h (List.not_mem_nil x)
  · exact h

theorem mem_queryData {st : Store} {names : List String} {hd : String × List String}
    (hmem : hd ∈ queryData st names) :
    hd.1 ∈ st.hotels.map (fun hr => hr.1) ∧
      ∀ n ∈ hd.2, n ∈ assocNames st hd.1 := by
  unfold queryData at hmem
  rcases List.mem_filterMap.mp hmem with ⟨hr, hrmem, heq⟩
  by_cases hemp : ((assocNames st hr.1).filter (fun n => names.contains n)).isEmpty
  · rw [if_pos hemp] at heq
    cases heq
  · rw [if_neg hemp] at heq
    cases Option.some.inj heq
    constructor
    · exact List.mem_map.mpr ⟨hr, hrmem, rfl⟩
    · intro n hn
      exact (List.mem_filter.mp hn).1

/-- C1: a hotel id returned by `filterService` has every requested service
name among its full association-name list. -/
theorem filterService_superset {services : List String} {k p : String}
    {st : Store} {result : List String}
    (hok : filterService services k p (.ok st) = .ok result) :
    ∀ h ∈ result, ∀ s ∈ services, s ∈ assocNames st h := by
  intro h hh s hs
  unfold filterService at hok
  by_cases h0 : services.length = 0
  · simp only [h0, if_true] at hok; cases hok
  · by_cases hcfg : k = "" ∨ p = ""
    · simp only [h0, if_false, hcfg, if_true] at hok; cases hok
    · simp only [h0, if_false, hcfg] at hok
      injection hok with hok
      subst hok
      have h1 := mem_jsSetDedup hh
      rcases List.mem_map.mp h1 with ⟨hd, hdmem, hdeq⟩
      have h2 := List.mem_filter.mp hdmem
      have h3 := mem_queryData h2.1
      have hall : services.all (fun s => hd.2.contains s) = true := h2.2
      have hs' : s ∈ hd.2 := by
        have hc := List.all_eq_true.mp hall s hs
        exact List.mem_of_elem_eq_true hc
      subst hdeq
      exact h3.2 s hs'

theorem filterService_superset_witness :
    ∃ result, filterService ["wifi"] "k" "p"
        (.ok ⟨[("H1", 0)], [(1, "wifi")], [("H1", 1, 0)], 2⟩) = .ok result ∧
      ∀ h ∈ result, ∀ s ∈ ["wifi"], s ∈ assocNames ⟨[("H1", 0)], [(1, "wifi")], [("H1", 1, 0)], 2⟩ h := by
  refine ⟨["H1"], rfl, ?_⟩
  exact @filterService_superset ["wifi"] "k" "p"
    ⟨[("H1", 0)], [(1, "wifi")], [("H1", 1, 0)], 2⟩ ["H1"] rfl

/-- C4: on the empty service list, `filterService` always throws the
InvalidInput 422 error, whatever the configuration, and without the query
outcome being consulted at all. -/
theorem filterService_empty_invalid (k p : String) (q : Except StoreError Store) :
    filterService [] k p q =
      .error { message := "No services provided", code := 422, stack := none } :=
  rfl

/-- C10: the empty-input check precedes the configuration check: with both
secrets missing, `filterService []` still throws "No services provided". -/
theorem filterService_empty_beats_config (q : Except StoreError Store) :
    filterService [] "" "" q =
      .error { message := "No services provided", code := 422, stack := none } :=
  rfl

/-- C8: a store error becomes a ServiceError with code 500 carrying the
store's message and stack; missing configuration gives code 422. -/
theorem filterService_error_codes (services : List String) (k p : String)
    (e : StoreError) (hne : services ≠ []) :
    (k ≠ "" → p ≠ "" →
      filterService services k p (.error e) =
        .error { message := e.message, code := 500, stack := e.stack }) ∧
    ((k = "" ∨ p = "") → ∀ q, filterService services k p q =
      .error { message := "Supabase configuration is not set", code := 422, stack := none }) := by
  have hlen : ¬ services.length = 0 := by
    simpa [List.length_eq_zero] using hne
  constructor
  · intro hk hp
    have hcfg : ¬ (k = "" ∨ p = "") := by
      rintro (h | h)
      · exact hk h
      · exact hp h
    simp [filterService, hlen, hcfg]
  · intro hcfg q
    simp [filterService, hlen, hcfg]

theorem filterService_error_codes_witness :
    filterService ["wifi"] "k" "p" (.error ⟨"boom", some "trace"⟩) =
      .error { message := "boom", code := 500, stack := some "trace" } ∧
    filterService ["wifi"] "" "p" (.ok emptyStore) =
      .error { message := "Supabase configuration is not set", code := 422, stack := none } :=
  ⟨(filterService_error_codes ["wifi"] "k" "p" ⟨"boom", some "trace"⟩ (by decide)).1
      (by decide) (by decide),
   (filterService_error_codes ["wifi"] "" "p" ⟨"boom", some "trace"⟩ (by decide)).2
      (Or.inl rfl) (.ok emptyStore)⟩

theorem serviceStepTrace_fst (h : String) (now : Nat) (st : Store) (name : String) :
    (serviceStepTrace h now st name).1 = serviceStep h now true st name := by
  unfold serviceStepTrace serviceStep
  cases hfind : findServiceId st name <;> simp

theorem namesTrace_spec (h : String) (now : Nat) (ns : List String) :
    ∀ st : Store,
      (namesTrace h now st ns).1 = ns.foldl (serviceStep h now true) st ∧
      (namesTrace h now st ns).2.filter Op.isSelect = ns.map Op.selectServiceOp ∧
      (namesTrace h now st ns).2.countP Op.isAssocUpsert = ns.length := by
  induction ns with
  | nil => intro st; exact ⟨rfl, rfl, rfl⟩
  | cons n ns ih =>
      intro st
      obtain ⟨ih1, ih2, ih3⟩ := ih (serviceStepTrace h now st n).1
      refine ⟨?_, ?_, ?_⟩
      · simp only [namesTrace]
        rw [ih1, serviceStepTrace_fst]
        rfl
      · simp only [namesTrace]
        rw [List.filter_append, ih2]
        cases hfind : findServiceId st n <;>
          simp [serviceStepTrace, hfind, Op.isSelect]
      · simp only [namesTrace]
        rw [List.countP_append, ih3]
        cases hfind : findServiceId st n <;>
          simp [serviceStepTrace, hfind, Op.isAssocUpsert, List.countP_cons] <;> omega

/-- C2: the non-delete branch of `hotelChanges` first upserts the hotel
row stamped with the current time, then deletes all of the hotel's
association rows, then runs the per-name chains in document order; every
name — duplicates included, no deduplication — issues exactly one name
lookup and one association upsert attempt, and the resulting state is
`reconcileFinal`. -/
theorem reconcile_step_order (st : Store) (h : String) (names : List String) (now : Nat) :
    (reconcileTrace st h names now).1 = reconcileFinal st h names now ∧
    ∃ ops, (reconcileTrace st h names now).2 =
        Op.upsertHotelOp h now :: Op.deleteAssociationsOp h :: ops ∧
      ops.filter Op.isSelect = names.map Op.selectServiceOp ∧
      ops.countP Op.isAssocUpsert = names.length := by
  obtain ⟨h1, h2, h3⟩ :=
    namesTrace_spec h now names (deleteAssociations (upsertHotel st h now) h)
  exact ⟨h1, _, rfl, h2, h3⟩

/-- C3: the `document.services.map` callback returns `undefined` rather
than the per-service promise chain, so the awaited `Promise.all`
guarantees only that the chains are scheduled: when the outer await
resolves, the store is exactly the post-(hotel upsert, association
delete) state, with no per-service effect applied; on a concrete run the
reconcile is considered finished while the association the fully settled
chains would write is still absent. -/
theorem reconcile_awaits_only_scheduling :
    (∀ (st : Store) (h : String) (names : List String) (now : Nat),
      reconcileSettled st h names now = deleteAssociations (upsertHotel st h now) h) ∧
    assocServiceIds (reconcileSettled emptyStore "H1" ["wifi"] 0) "H1" = [] ∧
    assocServiceIds (reconcileFinal emptyStore "H1" ["wifi"] 0) "H1" = [1] := by
  have key : ∀ (h : String) (now : Nat) (ns : List String) (s : Store),
      settleAll ((ns.map (mapCallback h now)).map (fun c => c.1)) s = s := by
    intro h now ns
    induction ns with
    | nil => intro s; rfl
    | cons n ns ih => intro s; simpa [settleAll, mapCallback] using ih s
  exact ⟨fun st h names now => key h now names _, rfl, rfl⟩

/-- C5: resolving the same name twice sequentially returns the same
identifier both times and the second resolution changes nothing; one
resolution brings the number of service rows with exactly that
(case-sensitive) name to one when it was absent and leaves the table's
count unchanged when present — the existing row is reused, not
re-inserted. -/
theorem resolveService_no_duplicate (st : Store) (name : String) :
    (resolveService (resolveService st name).1 name).2 = (resolveService st name).2 ∧
    (resolveService (resolveService st name).1 name).1 = (resolveService st name).1 ∧
    (resolveService st name).1.services.countP (fun s => s.2 = name) =
      (if st.services.countP (fun s => s.2 = name) = 0 then 1
       else st.services.countP (fun s => s.2 = name)) := by
  cases hfind : st.services.find? (fun s => s.2 = name) with
  | some row =>
      have hmem := List.mem_of_find?_eq_some hfind
      have hprop := List.find?_some hfind
      have hpos : 0 < st.services.countP (fun s => s.2 = name) :=
        List.countP_pos_iff.mpr ⟨row, hmem, hprop⟩
      have hif : ¬ st.services.countP (fun s => s.2 = name) = 0 :=
        Nat.pos_iff_ne_zero.mp hpos
      simp [resolveService, hfind, hif]
  | none =>
      have hzero : st.services.countP (fun s => s.2 = name) = 0 :=
        List.countP_eq_zero.mpr (by simpa using List.find?_eq_none.mp hfind)
      have hfind2 : (insertService st name).1.services.find? (fun s => s.2 = name)
          = some (st.nextServiceId, name) := by
        simp [insertService, hfind]
      simp [resolveService, hfind, hfind2, insertService, hzero]

/-- C9: when the name is absent and the service insert answers with no
data, the per-service chain inserts the service row but returns without
upserting the association and with no error outcome; a name listed in the
document can thus be silently missing from the hotel's final association
set. -/
theorem serviceStep_insert_no_data (st : Store) (h : String) (now : Nat) (name : String)
    (hnew : findServiceId st name = none) :
    (serviceStep h now false st name).hotels_services = st.hotels_services ∧
    (serviceStep h now false st name).services = st.services ++ [(st.nextServiceId, name)] ∧
    assocServiceIds (reconcileFinalB false emptyStore "H1" ["wifi"] 0) "H1" = [] := by
  refine ⟨?_, ?_, rfl⟩ <;> simp [serviceStep, hnew, insertService]

theorem serviceStep_insert_no_data_witness :
    findServiceId emptyStore "wifi" = none ∧
    (serviceStep "H1" 0 false emptyStore "wifi").hotels_services = emptyStore.hotels_services ∧
    (serviceStep "H1" 0 false emptyStore "wifi").services =
      emptyStore.services ++ [(emptyStore.nextServiceId, "wifi")] ∧
    assocServiceIds (reconcileFinalB false emptyStore "H1" ["wifi"] 0) "H1" = [] :=
  ⟨rfl, serviceStep_insert_no_data emptyStore "H1" 0 "wifi" rfl⟩

theorem assocServiceIds_deleteAssociations (s : Store) (h : String) :
    assocServiceIds (deleteAssociations s h) h = [] := by
  unfold assocServiceIds deleteAssociations
  rw [List.map_eq_nil_iff, List.filter_eq_nil_iff]
  intro a ha
  have h2 := (List.mem_filter.mp ha).2
  simp only [decide_eq_true_eq] at h2 ⊢
  exact h2

theorem filterService_mem_hotels {services : List String} {k p : String} {st : Store}
    {result : List String} (hok : filterService services k p (.ok st) = .ok result) :
    ∀ h ∈ result, h ∈ st.hotels.map (fun r => r.1) := by
  intro h hh
  unfold filterService at hok
  by_cases h0 : services.length = 0
  · simp only [h0, if_true] at hok; cases hok
  · by_cases hcfg : k = "" ∨ p = ""
    · simp only [h0, if_false, hcfg, if_true] at hok; cases hok
    · simp only [h0, if_false, hcfg] at hok
      injection hok with hok
      subst hok
      rcases List.mem_map.mp (mem_jsSetDedup hh) with ⟨hd, hdmem, hdeq⟩
      have h3 := mem_queryData (List.mem_filter.mp hdmem).1
      subst hdeq
      exact h3.1

/-- C7: the delete branch of `hotelChanges` returns no error whatever the
two deletes do (store failures never propagate); the association delete
is attempted, and clears the hotel's associations, even when the
preceding hotel delete failed; on success the final state deletes the
hotel row and then its associations, and a subsequent successful
`filterService` call never returns the removed hotel id. -/
theorem remove_then_filter (st : Store) (h : String) (e1 : Option StoreError) :
    (∀ e2, (removeRun st h e1 e2).2 = none) ∧
    assocServiceIds (removeRun st h e1 none).1 h = [] ∧
    (removeRun st h none none).1 = remove st h ∧
    (∀ services k p result,
      filterService services k p (.ok (remove st h)) = .ok result → h ∉ result) := by
  refine ⟨fun e2 => rfl, ?_, rfl, ?_⟩
  · cases e1 <;> exact assocServiceIds_deleteAssociations _ h
  · intro services k p result hok hmem
    have hmem2 := filterService_mem_hotels hok h hmem
    rcases List.mem_map.mp hmem2 with ⟨r, hr, hr1⟩
    have hr2 : r ∈ st.hotels.filter (fun r => ¬ r.1 = h) := hr
    have h2 := (List.mem_filter.mp hr2).2
    simp only [decide_eq_true_eq] at h2
    exact h2 hr1

theorem remove_then_filter_witness :
    ("H1" : String) ∉ (["H2"] : List String) :=
  (remove_then_filter ⟨[("H1", 0), ("H2", 0)], [(1, "wifi")],
      [("H1", 1, 0), ("H2", 1, 0)], 2⟩ "H1" none).2.2.2 ["wifi"] "k" "p" ["H2"] rfl

theorem upsertHotel_services (st : Store) (h : String) (now : Nat) :
    (upsertHotel st h now).services = st.services := by
  unfold upsertHotel; split <;> rfl

theorem upsertHotel_nextServiceId (st : Store) (h : String) (now : Nat) :
    (upsertHotel st h now).nextServiceId = st.nextServiceId := by
  unfold upsertHotel; split <;> rfl

theorem upsertAssociation_services (st : Store) (h : String) (sid now : Nat) :
    (upsertAssociation st h sid now).services = st.services := by
  unfold upsertAssociation; split <;> rfl

theorem upsertAssociation_nextServiceId (st : Store) (h : String) (sid now : Nat) :
    (upsertAssociation st h sid now).nextServiceId = st.nextServiceId := by
  unfold upsertAssociation; split <;> rfl

theorem any_key_iff (l : List (String × Nat × Nat)) (h : String) (sid : Nat) :
    l.any (fun a => a.1 = h ∧ a.2.1 = sid) = true ↔
      sid ∈ (l.filter (fun a => a.1 = h)).map (fun a => a.2.1) := by
  simp only [List.any_eq_true, List.mem_map, List.mem_filter, decide_eq_true_eq]
  constructor
  · rintro ⟨a, ha, h1, h2⟩; exact ⟨a, ⟨ha, h1⟩, h2⟩
  · rintro ⟨a, ⟨ha, h1⟩, h2⟩; exact ⟨a, ha, h1, h2⟩

theorem ids_map_update (l : List (String × Nat × Nat)) (h : String) (sid now : Nat) :
    ((l.map (fun a => if a.1 = h ∧ a.2.1 = sid then (h, sid, now) else a)).filter
        (fun a => a.1 = h)).map (fun a => a.2.1) =
      (l.filter (fun a => a.1 = h)).map (fun a => a.2.1) := by
  induction l with
  | nil => rfl
  | cons a l ih =>
      by_cases ha : a.1 = h
      · by_cases hs : a.2.1 = sid
        · simp [List.filter_cons, ha, hs, ih]
        · simp [List.filter_cons, ha, hs, ih]
      · simp [List.filter_cons, ha, ih]

theorem assocServiceIds_upsertAssociation (st : Store) (h : String) (sid now : Nat) :
    assocServiceIds (upsertAssociation st h sid now) h =
      addIdem (assocServiceIds st h) sid := by
  by_cases hany : st.hotels_services.any (fun a => a.1 = h ∧ a.2.1 = sid) = true
  · have hmem : sid ∈ assocServiceIds st h := (any_key_iff _ h sid).mp hany
    unfold upsertAssociation addIdem
    rw [if_pos hany, if_pos hmem]
    exact ids_map_update st.hotels_services h sid now
  · have hmem : sid ∉ assocServiceIds st h := fun hc => hany ((any_key_iff _ h sid).mpr hc)
    unfold upsertAssociation addIdem
    rw [if_neg hany, if_neg hmem]
    unfold assocServiceIds
    simp [List.filter_append]

theorem foldl_serviceStep_spec (h : String) (now : Nat) (ns : List String) :
    ∀ st : Store,
      (ns.foldl (serviceStep h now true) st).services =
        (regEvolve st.services st.nextServiceId ns).1 ∧
      (ns.foldl (serviceStep h now true) st).nextServiceId =
        (regEvolve st.services st.nextServiceId ns).2 ∧
      assocServiceIds (ns.foldl (serviceStep h now true) st) h =
        idsRun st.services st.nextServiceId ns (assocServiceIds st h) := by
  induction ns with
  | nil => intro st; exact ⟨rfl, rfl, rfl⟩
  | cons n ns ih =>
      intro st
      cases hfind : st.services.find? (fun s => s.2 = n) with
      | some row =>
          have hstep : serviceStep h now true st n = upsertAssociation st h row.1 now := by
            simp [serviceStep, findServiceId, hfind]
          have hres : regResolve st.services st.nextServiceId n
              = (st.services, st.nextServiceId, row.1) := by
            simp [regResolve, hfind]
          obtain ⟨i1, i2, i3⟩ := ih (upsertAssociation st h row.1 now)
          refine ⟨?_, ?_, ?_⟩
          · simp only [List.foldl_cons, regEvolve, hstep, hres]
            rw [i1, upsertAssociation_services, upsertAssociation_nextServiceId]
          · simp only [List.foldl_cons, regEvolve, hstep, hres]
            rw [i2, upsertAssociation_services, upsertAssociation_nextServiceId]
          · simp only [List.foldl_cons, idsRun, hstep, hres]
            rw [i3, upsertAssociation_services, upsertAssociation_nextServiceId,
              assocServiceIds_upsertAssociation]
      | none =>
          have hstep : serviceStep h now true st n
              = upsertAssociation (insertService st n).1 h st.nextServiceId now := by
            simp [serviceStep, findServiceId, hfind, insertService]
          have hres : regResolve st.services st.nextServiceId n
              = (st.services ++ [(st.nextServiceId, n)], st.nextServiceId + 1,
                  st.nextServiceId) := by
            simp [regResolve, hfind]
          obtain ⟨i1, i2, i3⟩ :=
            ih (upsertAssociation (insertService st n).1 h st.nextServiceId now)
          refine ⟨?_, ?_, ?_⟩
          · simp only [List.foldl_cons, regEvolve, hstep, hres]
            rw [i1, upsertAssociation_services, upsertAssociation_nextServiceId]
            rfl
          · simp only [List.foldl_cons, regEvolve, hstep, hres]
            rw [i2, upsertAssociation_services, upsertAssociation_nextServiceId]
            rfl
          · simp only [List.foldl_cons, idsRun, hstep, hres]
            rw [i3, upsertAssociation_services, upsertAssociation_nextServiceId,
              assocServiceIds_upsertAssociation]
            rfl

theorem regEvolve_append (ns : List String) :
    ∀ svcs next, ∃ ext, (regEvolve svcs next ns).1 = svcs ++ ext := by
  induction ns with
  | nil => intro svcs next; exact ⟨[], (List.append_nil svcs).symm⟩
  | cons n ns ih =>
      intro svcs next
      cases hfind : svcs.find? (fun s => s.2 = n) with
      | some row =>
          obtain ⟨ext, hext⟩ := ih svcs next
          refine ⟨ext, ?_⟩
          simp only [regEvolve, regResolve, hfind]
          exact hext
      | none =>
          obtain ⟨ext, hext⟩ := ih (svcs ++ [(next, n)]) (next + 1)
          refine ⟨(next, n) :: ext, ?_⟩
          simp only [regEvolve, regResolve, hfind]
          rw [hext, List.append_assoc]
          rfl

theorem lookupName_append_of_some {svcs : List (Nat × String)} {n : String} {i : Nat}
    (hl : lookupName svcs n = some i) (ext : List (Nat × String)) :
    lookupName (svcs ++ ext) n = some i := by
  unfold lookupName at hl ⊢
  rw [List.find?_append]
  cases hf : svcs.find? (fun s => s.2 = n) with
  | some row =>
      rw [hf] at hl
      simpa using hl
  | none => rw [hf] at hl; cases hl

theorem lookupName_regResolve (svcs : List (Nat × String)) (next : Nat) (n : String) :
    lookupName (regResolve svcs next n).1 n = some (regResolve svcs next n).2.2 := by
  unfold regResolve
  cases hf : svcs.find? (fun s => s.2 = n) with
  | some row => simp [lookupName, hf]
  | none => simp [lookupName, List.find?_append, hf]

theorem idsRun_eq_idsFixed (ns : List String) :
    ∀ svcs next acc,
      idsRun svcs next ns acc = idsFixed (regEvolve svcs next ns).1 ns acc := by
  induction ns with
  | nil => intro svcs next acc; rfl
  | cons n ns ih =>
      intro svcs next acc
      have hlook : lookupName (regEvolve (regResolve svcs next n).1
            (regResolve svcs next n).2.1 ns).1 n
          = some (regResolve svcs next n).2.2 := by
        obtain ⟨ext, hext⟩ :=
          regEvolve_append ns (regResolve svcs next n).1 (regResolve svcs next n).2.1
        rw [hext]
        exact lookupName_append_of_some (lookupName_regResolve svcs next n) ext
      simp only [idsRun, idsFixed, regEvolve]
      rw [ih, hlook]
      rfl

theorem lookupName_regEvolve_isSome (ns : List String) :
    ∀ svcs next n, n ∈ ns → (lookupName (regEvolve svcs next ns).1 n).isSome := by
  induction ns with
  | nil => intro svcs next n hn; cases hn
  | cons m ns ih =>
      intro svcs next n hn
      rcases List.mem_cons.mp hn with h1 | h1
      · subst h1
        obtain ⟨ext, hext⟩ :=
          regEvolve_append ns (regResolve svcs next n).1 (regResolve svcs next n).2.1
        simp only [regEvolve]
        rw [hext, lookupName_append_of_some (lookupName_regResolve svcs next n) ext]
        rfl
      · simp only [regEvolve]
        exact ih _ _ n h1

theorem idsRun_fixed (ns : List String) :
    ∀ (svcs : List (Nat × String)) (next : Nat) (acc : List Nat),
      (∀ n ∈ ns, (lookupName svcs n).isSome) →
      idsRun svcs next ns acc = idsFixed svcs ns acc := by
  induction ns with
  | nil => intro svcs next acc _; rfl
  | cons n ns ih =>
      intro svcs next acc hall
      have hsome := hall n (List.mem_cons_self n ns)
      cases hl : lookupName svcs n with
      | none => rw [hl] at hsome; cases hsome
      | some i =>
          have hres : regResolve svcs next n = (svcs, next, i) := by
            cases hf : svcs.find? (fun s => s.2 = n) with
            | some row =>
                have hrow : row.1 = i := by
                  unfold lookupName at hl
                  rw [hf] at hl
                  exact Option.some.inj hl
                simp [regResolve, hf, hrow]
            | none =>
                unfold lookupName at hl
                rw [hf] at hl
                cases hl
          simp only [idsRun, idsFixed, hres, hl, Option.getD_some]
          exact ih svcs next (addIdem acc i) (fun m hm => hall m (List.mem_cons_of_mem n hm))

/-- C6: reconcile is idempotent: running the non-delete branch twice with
the same hotel and name list leaves the hotel with the same association
set (as service-id list, even) as running it once, whatever the two
timestamps; and reconciling with the empty list leaves the hotel with
zero associations. -/
theorem reconcile_idempotent (st : Store) (h : String) (names : List String)
    (now now2 : Nat) :
    assocServiceIds (reconcileFinal (reconcileFinal st h names now) h names now2) h =
      assocServiceIds (reconcileFinal st h names now) h ∧
    assocServiceIds (reconcileFinal st h [] now) h = [] := by
  constructor
  · obtain ⟨s1, n1, i1⟩ :=
      foldl_serviceStep_spec h now names (deleteAssociations (upsertHotel st h now) h)
    obtain ⟨s2, n2, i2⟩ :=
      foldl_serviceStep_spec h now2 names
        (deleteAssociations (upsertHotel (reconcileFinal st h names now) h now2) h)
    have hbsvc : (deleteAssociations (upsertHotel st h now) h).services = st.services :=
      upsertHotel_services st h now
    have hbnext : (deleteAssociations (upsertHotel st h now) h).nextServiceId
        = st.nextServiceId := upsertHotel_nextServiceId st h now
    have hids1 : assocServiceIds (reconcileFinal st h names now) h
        = idsRun st.services st.nextServiceId names [] := by
      show assocServiceIds
          (names.foldl (serviceStep h now true) (deleteAssociations (upsertHotel st h now) h)) h
        = idsRun st.services st.nextServiceId names []
      rw [i1, hbsvc, hbnext, assocServiceIds_deleteAssociations]
    have hsvc1 : (reconcileFinal st h names now).services
        = (regEvolve st.services st.nextServiceId names).1 := by
      show (names.foldl (serviceStep h now true)
          (deleteAssociations (upsertHotel st h now) h)).services = _
      rw [s1, hbsvc, hbnext]
    have hnext1 : (reconcileFinal st h names now).nextServiceId
        = (regEvolve st.services st.nextServiceId names).2 := by
      show (names.foldl (serviceStep h now true)
          (deleteAssociations (upsertHotel st h now) h)).nextServiceId = _
      rw [n1, hbsvc, hbnext]
    have hb2svc : (deleteAssociations
          (upsertHotel (reconcileFinal st h names now) h now2) h).services
        = (regEvolve st.services st.nextServiceId names).1 := by
      rw [show (deleteAssociations
            (upsertHotel (reconcileFinal st h names now) h now2) h).services
          = (upsertHotel (reconcileFinal st h names now) h now2).services from rfl,
        upsertHotel_services, hsvc1]
    have hb2next : (deleteAssociations
          (upsertHotel (reconcileFinal st h names now) h now2) h).nextServiceId
        = (regEvolve st.services st.nextServiceId names).2 := by
      rw [show (deleteAssociations
            (upsertHotel (reconcileFinal st h names now) h now2) h).nextServiceId
          = (upsertHotel (reconcileFinal st h names now) h now2).nextServiceId from rfl,
        upsertHotel_nextServiceId, hnext1]
    have hids2 : assocServiceIds (reconcileFinal (reconcileFinal st h names now) h names now2) h
        = idsRun (regEvolve st.services st.nextServiceId names).1
            (regEvolve st.services st.nextServiceId names).2 names [] := by
      show assocServiceIds
          (names.foldl (serviceStep h now2 true)
            (deleteAssociations (upsertHotel (reconcileFinal st h names now) h now2) h)) h
        = _
      rw [i2, hb2svc, hb2next, assocServiceIds_deleteAssociations]
    rw [hids1, hids2]
    have hall : ∀ n ∈ names,
        (lookupName (regEvolve st.services st.nextServiceId names).1 n).isSome :=
      fun n hn => lookupName_regEvolve_isSome names st.services st.nextServiceId n hn
    rw [idsRun_fixed names _ _ [] hall, idsRun_eq_idsFixed names st.services st.nextServiceId []]
  · exact assocServiceIds_deleteAssociations _ h

end HotelServices
